import Mathlib

/-!
Shallow embedding of the NextGIS datastore core (`libngstore`) for
specification checking.  The definitions translate the C++ sources:
`Table` edit-history logging and CRUD (`table.cpp`), `Dataset` property
store, name normalization and `refresh` (`dataset.cpp`), and the GL
tile-tessellation fill routines (`GlFeatureLayer::fillPoints` /
`fillLines` / `fillPolygons`, `SimpleLineStyle`).  External collaborators
(GDAL/OGR layers, `GlBuffer`, `stringutil`) that are not part of the
source tree are modelled explicitly where needed; each such definition
carries a doc comment saying what it stands for.
-/

namespace NgStore

/-- Sentinel `NOT_FOUND` (= -1) used for absent feature/attachment ids. -/
def NOT_FOUND : Int := -1

/-- The change codes relevant to the edit-history log
(`ngsChangeCode` in the public API). -/
inductive ChangeCode where
  | createFeature
  | changeFeature
  | deleteFeature
  | deleteAllFeatures
  | createAttachment
  | changeAttachment
  | deleteAttachment
  | deleteAllAttachments
  deriving DecidableEq, Repr

/-- One row of the per-table edit-history side table: a stable row id
(the OGR FID of the log row itself), the logged feature id
(`FEATURE_ID_FIELD`), the logged attachment id (`ATTACH_FEATURE_ID_FIELD`,
`-1` when not an attachment operation) and the operation code
(`OPERATION_FIELD`). -/
structure LogRow where
  rid : Nat
  fid : Int
  aid : Int
  op : ChangeCode
  deriving DecidableEq, Repr

/-- The edit-history table state: rows in table order plus the next fresh
row id the store would assign on `CreateFeature`. -/
structure HistState where
  rows : List LogRow
  nextId : Nat
  deriving DecidableEq, Repr

/-- The three log-relevant fields of the `opFeature` handed to
`Table::logEditOperation` (built by `Table::logEditFeature`). -/
structure OpFeature where
  fid : Int
  aid : Int
  op : ChangeCode
  deriving DecidableEq, Repr

/-- `CreateFeature` on the edit-history layer: append a row with a fresh
row id. -/
def HistState.append (st : HistState) (f : OpFeature) : HistState :=
  ⟨st.rows ++ [⟨st.nextId, f.fid, f.aid, f.op⟩], st.nextId + 1⟩

/-- `DeleteFeature(rid)` on the edit-history layer: remove the row with
that row id. -/
def HistState.removeRow (st : HistState) (rid : Nat) : HistState :=
  ⟨st.rows.filter (fun r => r.rid ≠ rid), st.nextId⟩

/-- `SetFeature` after `attFeature->SetField(OPERATION_FIELD, code)`:
update the operation code of the row with the given row id, in place. -/
def HistState.setOp (st : HistState) (rid : Nat) (c : ChangeCode) : HistState :=
  ⟨st.rows.map (fun r => if r.rid = rid then { r with op := c } else r), st.nextId⟩

/-- `Table::logEditOperation` (table.cpp), for a non-null `opFeature`.
Each SQL `DELETE` statement is translated as the corresponding filter on
the rows of this table's history table; `GetNextFeature` iteration under
`SetAttributeFilter(FEATURE_ID_FIELD = fid)` is the in-order sublist of
rows with that feature id. -/
def logEditOperationCore (st : HistState) (f : OpFeature) : HistState :=
  let fid := f.fid
  let aid := f.aid
  let code := f.op
  if code = ChangeCode.deleteAllFeatures then
    -- clearEditHistoryTable, then CreateFeature(opFeature)
    HistState.append ⟨[], st.nextId⟩ f
  else if code = ChangeCode.deleteAllAttachments then
    if fid = NOT_FOUND then st
    else
      -- DELETE ... WHERE fid = :fid AND aid <> -1, then CreateFeature
      HistState.append
        ⟨st.rows.filter (fun r => ¬(r.fid = fid ∧ r.aid ≠ -1)), st.nextId⟩ f
  else
    -- Check delete all: DELETE ... WHERE op = CC_DELETEALL_FEATURES
    let st1 : HistState :=
      ⟨st.rows.filter (fun r => r.op ≠ ChangeCode.deleteAllFeatures), st.nextId⟩
    if code = ChangeCode.createAttachment ∨ code = ChangeCode.changeAttachment then
      if fid = NOT_FOUND then st1
      else
        -- DELETE ... WHERE op = CC_DELETEALL_ATTACHMENTS AND fid = :fid
        let st2 : HistState :=
          ⟨st1.rows.filter
            (fun r => ¬(r.op = ChangeCode.deleteAllAttachments ∧ r.fid = fid)),
           st1.nextId⟩
        if code = ChangeCode.createAttachment then
          HistState.append st2 f
        else
          -- CC_CHANGE_ATTACHMENT falls through to the filtered scan below
          let features := st2.rows.filter (fun r => r.fid = fid)
          if aid = NOT_FOUND then st2
          else if features.any (fun r => r.aid = aid) then st2
          else HistState.append st2 f
    else if code = ChangeCode.createFeature then
      if fid = NOT_FOUND then st1
      else HistState.append st1 f
    else
      let features := st1.rows.filter (fun r => r.fid = fid)
      if code = ChangeCode.deleteFeature then
        if fid = NOT_FOUND then st1
        else
          let st2 : HistState :=
            if features ≠ [] then
              ⟨st1.rows.filter (fun r => ¬(r.fid = fid)), st1.nextId⟩
            else st1
          -- if feature was created and then deleted - nop
          if features.any (fun r => r.op = ChangeCode.createFeature) then st2
          else HistState.append st2 f
      else if code = ChangeCode.deleteAttachment then
        if fid = NOT_FOUND ∨ aid = NOT_FOUND then st1
        else
          match features.find? (fun r => r.aid = aid) with
          | some r =>
            if r.op = ChangeCode.createAttachment then st1.removeRow r.rid
            else st1.setOp r.rid ChangeCode.deleteAttachment
          | none => HistState.append st1 f
      else
        -- code = CC_CHANGE_FEATURE
        if fid = NOT_FOUND then st1
        else if features ≠ [] then st1
        else HistState.append st1 f

/-- `Table::logEditOperation` including the initial `if(!opFeature) return;`
null guard (a null `opFeature` leaves the log unchanged). -/
def logEditOperation (st : HistState) (f : Option OpFeature) : HistState :=
  match f with
  | none => st
  | some f => logEditOperationCore st f

/-- The edit-history rows recorded for feature `fid`, in table order. -/
def featureEntries (st : HistState) (fid : Int) : List LogRow :=
  st.rows.filter (fun r => r.fid = fid)

lemma featureEntries_append (st : HistState) (f : OpFeature) (fid : Int)
    (h : f.fid = fid) :
    featureEntries (HistState.append st f) fid
      = featureEntries st fid ++ [⟨st.nextId, f.fid, f.aid, f.op⟩] := by
  simp [featureEntries, HistState.append, List.filter_append, h]

lemma featureEntries_purged (l : List LogRow) (n : Nat) (fid : Int) :
    featureEntries ⟨l.filter (fun r => ¬(r.fid = fid)), n⟩ fid = [] := by
  simp only [featureEntries]
  rw [List.filter_eq_nil_iff]
  intro a ha
  have := (List.mem_filter.mp ha).2
  simpa using this

/-- Core of the delete-feature compaction, shared by C1's parts: after
logging `delete-feature`, either the feature had an in-log `create-feature`
and its whole history is gone with nothing appended, or its history was
purged and replaced by the single fresh `delete-feature` row. -/
lemma deleteFeature_entries (st : HistState) (fid aid : Int)
    (hfid : fid ≠ NOT_FOUND) :
    featureEntries (logEditOperationCore st ⟨fid, aid, ChangeCode.deleteFeature⟩) fid
      = if ∃ r ∈ st.rows, r.fid = fid ∧ r.op = ChangeCode.createFeature then []
        else [⟨st.nextId, fid, aid, ChangeCode.deleteFeature⟩] := by
  simp only [logEditOperationCore]
  simp only [reduceCtorEq, if_false, false_or,
    if_neg (show ¬(ChangeCode.deleteFeature = ChangeCode.createAttachment ∨
      ChangeCode.deleteFeature = ChangeCode.changeAttachment) by decide),
    if_true, if_neg hfid]
  by_cases hex : ∃ r ∈ st.rows, r.fid = fid ∧ r.op = ChangeCode.createFeature
  · obtain ⟨r, hr, h1, h2⟩ := hex
    have hr1 : r ∈ st.rows.filter (fun r => r.op ≠ ChangeCode.deleteAllFeatures) :=
      List.mem_filter.mpr ⟨hr, by simp [h2]⟩
    have hrf : r ∈ (st.rows.filter
        (fun r => r.op ≠ ChangeCode.deleteAllFeatures)).filter (fun r => r.fid = fid) :=
      List.mem_filter.mpr ⟨hr1, by simp [h1]⟩
    have hne : (st.rows.filter
        (fun r => r.op ≠ ChangeCode.deleteAllFeatures)).filter (fun r => r.fid = fid) ≠ [] :=
      List.ne_nil_of_mem hrf
    have hany : ((st.rows.filter
        (fun r => r.op ≠ ChangeCode.deleteAllFeatures)).filter (fun r => r.fid = fid)).any
        (fun r => r.op = ChangeCode.createFeature) = true :=
      List.any_eq_true.mpr ⟨r, hrf, by simp [h2]⟩
    rw [if_pos hne, if_pos hany,
      if_pos (show ∃ r ∈ st.rows, r.fid = fid ∧ r.op = ChangeCode.createFeature from
        ⟨r, hr, h1, h2⟩)]
    exact featureEntries_purged _ _ _
  · have hex' := hex
    push_neg at hex'
    have hany : ¬ (((st.rows.filter
        (fun r => r.op ≠ ChangeCode.deleteAllFeatures)).filter (fun r => r.fid = fid)).any
        (fun r => r.op = ChangeCode.createFeature) = true) := by
      rw [Bool.not_eq_true, List.any_eq_false]
      intro r hr
      have h1 := List.mem_filter.mp hr
      have h0 := List.mem_filter.mp h1.1
      have := hex' r h0.1 (by simpa using h1.2)
      simpa using this
    rw [if_neg hex, if_neg hany]
    by_cases hnil : (st.rows.filter
        (fun r => r.op ≠ ChangeCode.deleteAllFeatures)).filter (fun r => r.fid = fid) = []
    · rw [if_neg (not_not_intro hnil), featureEntries_append _ _ _ rfl]
      have hfe : featureEntries
          ⟨st.rows.filter (fun r => r.op ≠ ChangeCode.deleteAllFeatures), st.nextId⟩ fid
          = [] := hnil
      rw [hfe]
      simp
    · rw [if_pos hnil, featureEntries_append _ _ _ rfl, featureEntries_purged]
      simp

/-- `logEditOperation` on a `create-feature` op with a valid fid: purge
any stale `delete-all-features` sentinel rows, then append. -/
lemma createFeature_unfold (st : HistState) (fid aidc : Int)
    (hfid : fid ≠ NOT_FOUND) :
    logEditOperationCore st ⟨fid, aidc, ChangeCode.createFeature⟩
      = HistState.append
          ⟨st.rows.filter (fun r => r.op ≠ ChangeCode.deleteAllFeatures), st.nextId⟩
          ⟨fid, aidc, ChangeCode.createFeature⟩ := by
  simp only [logEditOperationCore]
  simp only [reduceCtorEq, if_false, false_or,
    if_neg (show ¬(ChangeCode.createFeature = ChangeCode.createAttachment ∨
      ChangeCode.createFeature = ChangeCode.changeAttachment) by decide),
    if_true, if_neg hfid]

/-- C1: on `delete-feature` for feature `fid`, if the log holds a prior
`create-feature` entry for `fid` the whole per-feature history is dropped
and nothing is appended; otherwise all prior entries for `fid` are purged
and exactly one `delete-feature` entry is appended.  Consequently a
`create-feature` followed by `delete-feature` for a feature with no other
log activity leaves zero log entries for that feature. -/
theorem logEdit_deleteFeature_compaction (st : HistState) (fid aid : Int)
    (hfid : fid ≠ NOT_FOUND) :
    ((∃ r ∈ st.rows, r.fid = fid ∧ r.op = ChangeCode.createFeature) →
      featureEntries (logEditOperationCore st ⟨fid, aid, ChangeCode.deleteFeature⟩) fid
        = [])
    ∧ ((¬ ∃ r ∈ st.rows, r.fid = fid ∧ r.op = ChangeCode.createFeature) →
      featureEntries (logEditOperationCore st ⟨fid, aid, ChangeCode.deleteFeature⟩) fid
        = [⟨st.nextId, fid, aid, ChangeCode.deleteFeature⟩])
    ∧ (∀ aidc : Int, featureEntries st fid = [] →
      featureEntries
        (logEditOperationCore
          (logEditOperationCore st ⟨fid, aidc, ChangeCode.createFeature⟩)
          ⟨fid, aid, ChangeCode.deleteFeature⟩) fid = []) := by
  refine ⟨?_, ?_, ?_⟩
  · intro h
    rw [deleteFeature_entries st fid aid hfid, if_pos h]
  · intro h
    rw [deleteFeature_entries st fid aid hfid, if_neg h]
  · intro aidc _
    rw [createFeature_unfold st fid aidc hfid,
      deleteFeature_entries _ fid aid hfid, if_pos ?_]
    exact ⟨⟨st.nextId, fid, aidc, ChangeCode.createFeature⟩,
      by simp [HistState.append], rfl, rfl⟩

/-- Witness for C1 at a concrete input: feature 5 is created and then
deleted before any other activity; its history ends up empty. -/
theorem logEdit_deleteFeature_compaction_witness :
    featureEntries
      (logEditOperationCore
        ⟨[⟨0, 5, -1, ChangeCode.createFeature⟩], 1⟩
        ⟨5, -1, ChangeCode.deleteFeature⟩) 5 = [] :=
  (logEdit_deleteFeature_compaction
      ⟨[⟨0, 5, -1, ChangeCode.createFeature⟩], 1⟩ 5 (-1) (by decide)).1
    (by decide)

/-- Under the well-formedness condition that no `delete-all-features`
sentinel row carries this feature's id, the scan list the code builds for
feature `fid` is exactly the feature's entries. -/
lemma st1_proj (st : HistState) (fid : Int)
    (hsent : ∀ r ∈ st.rows, r.fid = fid → r.op ≠ ChangeCode.deleteAllFeatures) :
    (st.rows.filter (fun r => r.op ≠ ChangeCode.deleteAllFeatures)).filter
        (fun r => r.fid = fid)
      = st.rows.filter (fun r => r.fid = fid) := by
  rw [List.filter_filter]
  refine List.filter_congr ?_
  intro r hr
  by_cases h : r.fid = fid
  · simp [h, hsent r hr h]
  · simp [h]

/-- `logEditOperation` on a `delete-attachment` op with valid ids,
unfolded to the scan over the feature's rows (the match of the embedded
code). -/
lemma deleteAttachment_unfold (st : HistState) (fid aid : Int)
    (hfid : fid ≠ NOT_FOUND) (haid : aid ≠ NOT_FOUND) :
    logEditOperationCore st ⟨fid, aid, ChangeCode.deleteAttachment⟩
      = (let st1 : HistState :=
          ⟨st.rows.filter (fun r => r.op ≠ ChangeCode.deleteAllFeatures), st.nextId⟩
         match (st1.rows.filter (fun r => r.fid = fid)).find?
            (fun r => r.aid = aid) with
         | some r =>
            if r.op = ChangeCode.createAttachment then st1.removeRow r.rid
            else st1.setOp r.rid ChangeCode.deleteAttachment
         | none => HistState.append st1 ⟨fid, aid, ChangeCode.deleteAttachment⟩) := by
  simp only [logEditOperationCore]
  simp only [reduceCtorEq, if_false, false_or,
    if_neg (show ¬(ChangeCode.deleteAttachment = ChangeCode.createAttachment ∨
      ChangeCode.deleteAttachment = ChangeCode.changeAttachment) by decide),
    if_true, if_neg (show ¬(fid = NOT_FOUND ∨ aid = NOT_FOUND) by
      exact fun h => h.elim hfid haid)]

/-- C2: on `delete-attachment` for `(fid, aid)` the feature's log rows are
scanned for the first one with attachment id `aid`: if that row's op is
`create-attachment` the row is removed and nothing appended; if it has any
other op the row's op is rewritten in place to `delete-attachment` (no new
row); if no row matches, a fresh `delete-attachment` entry is appended.
Stated for states whose `delete-all-features` sentinel rows do not carry
this feature id (the sentinel carries fid = -1 in the code). -/
theorem logEdit_deleteAttachment_cases (st : HistState) (fid aid : Int)
    (hfid : fid ≠ NOT_FOUND) (haid : aid ≠ NOT_FOUND)
    (hsent : ∀ r ∈ st.rows, r.fid = fid → r.op ≠ ChangeCode.deleteAllFeatures) :
    (∀ r, (featureEntries st fid).find? (fun x => x.aid = aid) = some r →
      (r.op = ChangeCode.createAttachment →
        featureEntries (logEditOperationCore st ⟨fid, aid, ChangeCode.deleteAttachment⟩) fid
          = (featureEntries st fid).filter (fun x => x.rid ≠ r.rid))
      ∧ (r.op ≠ ChangeCode.createAttachment →
        featureEntries (logEditOperationCore st ⟨fid, aid, ChangeCode.deleteAttachment⟩) fid
          = (featureEntries st fid).map (fun x =>
              if x.rid = r.rid then { x with op := ChangeCode.deleteAttachment } else x)))
    ∧ ((featureEntries st fid).find? (fun x => x.aid = aid) = none →
      featureEntries (logEditOperationCore st ⟨fid, aid, ChangeCode.deleteAttachment⟩) fid
        = featureEntries st fid ++ [⟨st.nextId, fid, aid, ChangeCode.deleteAttachment⟩]) := by
  have hproj := st1_proj st fid hsent
  rw [deleteAttachment_unfold st fid aid hfid haid]
  simp only []
  rw [show (st.rows.filter
      (fun r => r.op ≠ ChangeCode.deleteAllFeatures)).filter (fun r => r.fid = fid)
      = featureEntries st fid from hproj]
  constructor
  · intro r hr
    rw [hr]
    dsimp only
    constructor
    · intro hop
      rw [if_pos hop]
      simp only [featureEntries, HistState.removeRow, List.filter_filter]
      refine List.filter_congr ?_
      intro x hx
      by_cases h1 : x.fid = fid
      · simp [h1, hsent x hx h1]
      · simp [h1]
    · intro hop
      rw [if_neg hop]
      simp only [featureEntries, HistState.setOp]
      rw [List.filter_map]
      have hcomp : ∀ x ∈ st.rows.filter (fun r => r.op ≠ ChangeCode.deleteAllFeatures),
          ((fun r : LogRow => decide (r.fid = fid)) ∘
            (fun q : LogRow =>
              if q.rid = r.rid then { q with op := ChangeCode.deleteAttachment } else q)) x
          = decide (x.fid = fid) := by
        intro x _
        by_cases h : x.rid = r.rid <;> simp [h]
      rw [List.filter_congr hcomp]
      rw [show (st.rows.filter
          (fun r => r.op ≠ ChangeCode.deleteAllFeatures)).filter (fun r => r.fid = fid)
          = featureEntries st fid from hproj]
      simp only [featureEntries]
  · intro hnone
    rw [hnone]
    dsimp only
    rw [featureEntries_append _ _ _ rfl]
    simp only [featureEntries]
    rw [hproj]

/-- Witness for C2 at concrete inputs: an attachment created in-log and
then deleted leaves no row, exercised through the theorem's first case. -/
theorem logEdit_deleteAttachment_cases_witness :
    featureEntries
      (logEditOperationCore ⟨[⟨0, 5, 7, ChangeCode.createAttachment⟩], 1⟩
        ⟨5, 7, ChangeCode.deleteAttachment⟩) 5 = [] :=
  ((logEdit_deleteAttachment_cases ⟨[⟨0, 5, 7, ChangeCode.createAttachment⟩], 1⟩
      5 7 (by decide) (by decide) (by decide)).1
    ⟨0, 5, 7, ChangeCode.createAttachment⟩ (by decide)).1 (by decide)

/-! ## Property store (`Dataset::setProperty` / `Dataset::property` /
`Table::property`) -/

/-- ASCII upper-casing of one character (CPL string helpers and SQLite
`LIKE` are case-insensitive over ASCII). -/
def asciiUpper (c : Char) : Char :=
  if 'a' ≤ c ∧ c ≤ 'z' then Char.ofNat (c.toNat - 32) else c

/-- Case-insensitive string comparison (CPL `EQUAL`; also the semantics
of `META_KEY LIKE "key"` for keys without wildcard characters). -/
def ciEq (a b : String) : Bool :=
  decide (a.toList.map asciiUpper = b.toList.map asciiUpper)

/-- Result status of an OGR store call. -/
inductive OGRErr where
  | NONE
  | FAILURE
  deriving DecidableEq, Repr

/-- One key/value row of the `nga_meta` metadata table. -/
structure MetaRow where
  key : String
  value : String
  deriving DecidableEq, Repr

/-- `Dataset::property(key, defaultValue)` (dataset.cpp): when the
metadata table is not resolved (`m_metadata` null) the default is
returned; otherwise the table is scanned under the filter
`META_KEY LIKE "key"` and the first hit's value is returned — and when
there is no hit, the local `CPLString out;` is returned still empty. -/
def Dataset.property (metadata : Option (List MetaRow))
    (key defaultValue : String) : String :=
  match metadata with
  | none => defaultValue
  | some rows =>
    match rows.find? (fun r => ciEq r.key key) with
    | some r => r.value
    | none => ""

/-- `Table::property(key, defaultValue, domain)` (table.cpp): returns ""
when the parent is not a `Dataset`, otherwise prefixes the key with the
table name and optional domain and delegates to `Dataset::property`. -/
def Table.property (parent : Option (Option (List MetaRow)))
    (tableName : String) (domain : Option String)
    (key defaultValue : String) : String :=
  match parent with
  | none => ""
  | some metadata =>
    let name := tableName ++ (match domain with
      | some d => "." ++ d
      | none => "") ++ "." ++ key
    Dataset.property metadata name defaultValue

/-- `Dataset::setProperty(key, value)` (dataset.cpp): returns `false`
when the metadata table is missing and cannot be created, and otherwise
returns the result of `m_metadata->CreateFeature(feature) != OGRERR_NONE`
— i.e. `true` exactly when the insert fails. -/
def Dataset.setProperty (metadataAvailable : Bool)
    (insertResult : OGRErr) : Bool :=
  if metadataAvailable then decide (insertResult ≠ OGRErr.NONE) else false

/-- Counterexample to C3: with a metadata table present that does not
contain key "b", `Dataset::property("b", "D")` returns the empty string,
not the caller-supplied default "D". -/
theorem property_absent_returns_empty_cex :
    Dataset.property (some [⟨"a", "1"⟩]) "b" "D" = "" ∧ "" ≠ "D" := by
  constructor
  · rfl
  · decide

/-- C3 amended: a property read returns the caller-supplied default only
when the property store is absent (no metadata table resolved; for
`Table::property`, a missing parent dataset yields "" regardless of the
default); when the metadata table exists but holds no row matching the
key, the empty string is returned instead of the default. -/
theorem property_absent_behavior (rows : List MetaRow)
    (key d tn : String) (dom : Option String)
    (h : ∀ r ∈ rows, ¬ ciEq r.key key = true) :
    Dataset.property none key d = d
    ∧ Dataset.property (some rows) key d = ""
    ∧ Table.property none tn dom key d = "" := by
  refine ⟨rfl, ?_, rfl⟩
  simp only [Dataset.property]
  rw [List.find?_eq_none.mpr h]

/-- Witness for the amended C3 at concrete inputs. -/
theorem property_absent_behavior_witness :
    Dataset.property none "b" "D" = "D"
    ∧ Dataset.property (some [⟨"a", "1"⟩]) "b" "D" = ""
    ∧ Table.property none "t" none "b" "D" = "" :=
  property_absent_behavior [⟨"a", "1"⟩] "b" "D" "t" none (by decide)

/-- C10: `Dataset::setProperty` reports `true` exactly when the insert of
the key/value row fails, `false` when it succeeds, and `false` when the
metadata table cannot be created. -/
theorem setProperty_inverts_store_outcome (r : OGRErr) :
    (Dataset.setProperty true r = true ↔ r ≠ OGRErr.NONE)
    ∧ Dataset.setProperty false r = false := by
  cases r <;> simp [Dataset.setProperty]

/-! ## Feature CRUD notification behavior (`Table::insertFeature`,
`Table::updateFeature`, `Table::deleteFeature`) -/

/-- Outcome of one CRUD call: the returned status, whether an
edit-history entry was written, and how many per-feature change
notifications were emitted. -/
structure CrudOutcome where
  ok : Bool
  logged : Bool
  notifications : Nat
  deriving DecidableEq, Repr

/-- `Table::insertFeature` (table.cpp): store-level `CreateFeature` under
the SQL lock; on success, optional edit-log append, and a notification
unless the parent dataset is in batch-operation mode. -/
def Table.insertFeature (layerExists storeOk parentIsDataset batch
    logEdits : Bool) : CrudOutcome :=
  if ¬ layerExists then ⟨false, false, 0⟩
  else if storeOk then
    ⟨true, logEdits, if parentIsDataset ∧ ¬ batch then 1 else 0⟩
  else ⟨false, false, 0⟩

/-- `Table::updateFeature` (table.cpp): same structure as
`insertFeature`, with `SetFeature` as the store call. -/
def Table.updateFeature (layerExists storeOk parentIsDataset batch
    logEdits : Bool) : CrudOutcome :=
  if ¬ layerExists then ⟨false, false, 0⟩
  else if storeOk then
    ⟨true, logEdits, if parentIsDataset ∧ ¬ batch then 1 else 0⟩
  else ⟨false, false, 0⟩

/-- `Table::deleteFeature` (table.cpp): prepares a log feature when
`saveEditHistory() && logEdits`, runs the store delete under the lock,
and on success drops the feature's attachments, logs the edit if
requested, and notifies — with no batch-mode check before the
notification. -/
def Table.deleteFeature (layerExists storeOk saveHistory
    logEdits : Bool) : CrudOutcome :=
  if ¬ layerExists then ⟨false, false, 0⟩
  else if storeOk then
    ⟨true, saveHistory ∧ logEdits, 1⟩
  else ⟨false, false, 0⟩

/-- Counterexample to C4: with the parent dataset in batch-operation mode
(`batch = true`) a successful `deleteFeature` still emits one change
notification (the code notifies unconditionally on the delete path). -/
theorem deleteFeature_notifies_in_batch_cex :
    (Table.deleteFeature true true true true).notifications = 1 := by
  decide

/-- C4 amended: on success, `insertFeature` and `updateFeature` emit
exactly one change notification when the parent dataset exists and is not
in batch mode, and none in batch mode; `deleteFeature` emits exactly one
change notification on success even in batch mode. -/
theorem crud_notification_behavior (layerExists storeOk parentIsDataset
    batch logEdits saveHistory : Bool) :
    ((Table.insertFeature layerExists storeOk parentIsDataset batch
        logEdits).notifications
      = if layerExists ∧ storeOk ∧ parentIsDataset ∧ ¬ batch then 1 else 0)
    ∧ ((Table.updateFeature layerExists storeOk parentIsDataset batch
        logEdits).notifications
      = if layerExists ∧ storeOk ∧ parentIsDataset ∧ ¬ batch then 1 else 0)
    ∧ ((Table.deleteFeature layerExists storeOk saveHistory
        logEdits).notifications
      = if layerExists ∧ storeOk then 1 else 0) := by
  refine ⟨?_, ?_, ?_⟩ <;>
    simp only [Table.insertFeature, Table.updateFeature, Table.deleteFeature] <;>
    cases layerExists <;> cases storeOk <;> cases parentIsDataset <;>
    cases batch <;> simp

/-! ## Name normalization (`Dataset::normalizeDatasetName`,
`Dataset::normalizeFieldName`).  Names are modelled as `List Char`
(CPLString byte strings). -/

/-- The fixed forbidden-character set of dataset.cpp. -/
def forbiddenChars : List Char :=
  [':', '@', '#', '%', '^', '&', '*', '!', '$', '(', ')', '+', '-',
   '?', '=', '/', '\\', '"', '\'', '[', ']', ',']

/-- `forbiddenChar(c)` (dataset.cpp). -/
def forbiddenChar (c : Char) : Bool := c ∈ forbiddenChars

/-- Case-insensitive `List Char` comparison (CPL `EQUAL`). -/
def ciEqL (a b : List Char) : Bool :=
  decide (a.map asciiUpper = b.map asciiUpper)

/-- Modelled from the spec: `normalize` from `util/stringutil` is not part
of the source tree (only its callers are); the spec describes name
normalization solely as forbidden-character replacement plus the digit and
SQL-keyword rules that are visible in dataset.cpp, so the missing helper
is modelled as the identity. -/
def normalizeL (name : List Char) : List Char := name

/-- `replace_if(out.begin(), out.end(), forbiddenChar, '_')`. -/
def replaceForbiddenL (l : List Char) : List Char :=
  l.map (fun c => if forbiddenChar c then '_' else c)

/-- `MAX_EQUAL_NAMES` (dataset.cpp). -/
def MAX_EQUAL_NAMES : Nat := 10000

/-- `METHADATA_TABLE_NAME` (dataset.cpp). -/
def METHADATA_TABLE_NAME : List Char := "nga_meta".toList

/-- `Dataset::isNameValid` (dataset.cpp): the name must differ
(case-insensitively) from every child's name, and for database-backed
formats also from the reserved metadata table name. -/
def Dataset.isNameValid (children : List (List Char)) (isDb : Bool)
    (name : List Char) : Bool :=
  if children.any (fun c => ciEqL c name) then false
  else if ciEqL METHADATA_TABLE_NAME name ∧ isDb then false
  else true

/-- The `while(!isNameValid(outName))` loop of
`Dataset::normalizeDatasetName`: check the current candidate, then bump
the counter, build `origin + "_" + counter` and fail with the empty name
once the counter reaches `MAX_EQUAL_NAMES`.  The loop body runs at most
`MAX_EQUAL_NAMES` times, which the structural `fuel` argument mirrors
(the `fuel = 0` branch is unreachable from the top-level call). -/
def nameSearch (valid : List Char → Bool) (origin : List Char) :
    Nat → List Char → Nat → List Char
  | _, _, 0 => []
  | counter, out, fuel + 1 =>
    if valid out then out
    else
      let c := counter + 1
      let out' := origin ++ '_' :: Nat.toDigits 10 c
      if c = MAX_EQUAL_NAMES then []
      else nameSearch valid origin c out' fuel

/-- `Dataset::normalizeDatasetName` (dataset.cpp). -/
def Dataset.normalizeDatasetName (children : List (List Char))
    (isDb : Bool) (name : List Char) : List Char :=
  let outName :=
    if name = [] then "new_dataset".toList
    else replaceForbiddenL (normalizeL name)
  nameSearch (Dataset.isNameValid children isDb) outName 0 outName
    MAX_EQUAL_NAMES

/-- The `n`-th candidate name tried by the collision loop:
the base name itself, then `base_n`. -/
def candidate (origin : List Char) : Nat → List Char
  | 0 => origin
  | n + 1 => origin ++ '_' :: Nat.toDigits 10 (n + 1)

/-- The 124 reserved SQL identifiers of dataset.cpp. -/
def forbiddenSQLFieldNames : List String :=
  ["ABORT", "ACTION", "ADD", "AFTER", "ALL", "ALTER", "ANALYZE", "AND",
   "AS", "ASC", "ATTACH", "AUTOINCREMENT", "BEFORE", "BEGIN", "BETWEEN",
   "BY", "CASCADE", "CASE", "CAST", "CHECK", "COLLATE", "COLUMN",
   "COMMIT", "CONFLICT", "CONSTRAINT", "CREATE", "CROSS", "CURRENT_DATE",
   "CURRENT_TIME", "CURRENT_TIMESTAMP", "DATABASE", "DEFAULT",
   "DEFERRABLE", "DEFERRED", "DELETE", "DESC", "DETACH", "DISTINCT",
   "DROP", "EACH", "ELSE", "END", "ESCAPE", "EXCEPT", "EXCLUSIVE",
   "EXISTS", "EXPLAIN", "FAIL", "FOR", "FOREIGN", "FROM", "FULL", "GLOB",
   "GROUP", "HAVING", "IF", "IGNORE", "IMMEDIATE", "IN", "INDEX",
   "INDEXED", "INITIALLY", "INNER", "INSERT", "INSTEAD", "INTERSECT",
   "INTO", "IS", "ISNULL", "JOIN", "KEY", "LEFT", "LIKE", "LIMIT",
   "MATCH", "NATURAL", "NO", "NOT", "NOTNULL", "NULL", "OF", "OFFSET",
   "ON", "OR", "ORDER", "OUTER", "PLAN", "PRAGMA", "PRIMARY", "QUERY",
   "RAISE", "RECURSIVE", "REFERENCES", "REGEXP", "REINDEX", "RELEASE",
   "RENAME", "REPLACE", "RESTRICT", "RIGHT", "ROLLBACK", "ROW",
   "SAVEPOINT", "SELECT", "SET", "TABLE", "TEMP", "TEMPORARY", "THEN",
   "TO", "TRANSACTION", "TRIGGER", "UNION", "UNIQUE", "UPDATE", "USING",
   "VACUUM", "VALUES", "VIEW", "VIRTUAL", "WHEN", "WHERE", "WITH",
   "WITHOUT"]

/-- The reserved SQL identifiers as character lists. -/
def forbiddenSQLFieldNamesL : List (List Char) :=
  forbiddenSQLFieldNames.map String.toList

/-- The `if(isdigit(out[0]))` step of `Dataset::normalizeFieldName`;
`out[0]` of an empty `std::string` is the null character, which is not a
digit. -/
def digitPrefix (l : List Char) : List Char :=
  match l with
  | [] => []
  | c :: _ => if c.isDigit then "Fld_".toList ++ l else l

/-- `Dataset::normalizeFieldName` (dataset.cpp): normalize, replace
forbidden characters with underscore, prefix `Fld_` when the result
starts with a digit, and for database formats append `_` when the
upper-cased result is a reserved SQL identifier. -/
def Dataset.normalizeFieldName (isDb : Bool) (name : List Char) : List Char :=
  let out := replaceForbiddenL (normalizeL name)
  let out2 := digitPrefix out
  if isDb ∧ (out2.map asciiUpper) ∈ forbiddenSQLFieldNamesL then
    out2 ++ ['_']
  else out2

lemma replaceForbiddenL_idem (l : List Char) :
    replaceForbiddenL (replaceForbiddenL l) = replaceForbiddenL l := by
  simp only [replaceForbiddenL, List.map_map]
  refine List.map_congr_left ?_
  intro c _
  by_cases h : forbiddenChar c = true
  · simp [h, show forbiddenChar '_' = false by decide]
  · simp [Function.comp, h]

lemma replaceForbiddenL_fixed_digitPrefix (x : List Char)
    (hx : replaceForbiddenL x = x) :
    replaceForbiddenL (digitPrefix x) = digitPrefix x := by
  cases x with
  | nil => simp [digitPrefix, replaceForbiddenL]
  | cons c t =>
    by_cases h : c.isDigit
    · simp only [digitPrefix, if_pos h]
      rw [show replaceForbiddenL ("Fld_".toList ++ c :: t)
          = replaceForbiddenL "Fld_".toList ++ replaceForbiddenL (c :: t) from
        List.map_append _ _ _]
      rw [hx]
      rfl
    · simpa [digitPrefix, h] using hx

lemma digitPrefix_idem (l : List Char) :
    digitPrefix (digitPrefix l) = digitPrefix l := by
  cases l with
  | nil => rfl
  | cons c t =>
    by_cases h : c.isDigit
    · simp [digitPrefix, h, show ('F').isDigit = false by decide]
    · simp [digitPrefix, h]

lemma digitPrefix_concat_underscore (l : List Char) :
    digitPrefix (digitPrefix l ++ ['_']) = digitPrefix l ++ ['_'] := by
  cases l with
  | nil => rfl
  | cons c t =>
    by_cases h : c.isDigit
    · simp [digitPrefix, h, show ('F').isDigit = false by decide]
    · simp [digitPrefix, h]

lemma replaceForbiddenL_append (a b : List Char) :
    replaceForbiddenL (a ++ b) = replaceForbiddenL a ++ replaceForbiddenL b :=
  List.map_append _ _ _

set_option maxRecDepth 8000 in
lemma sql_names_no_trailing_underscore :
    ∀ w ∈ forbiddenSQLFieldNamesL, w.getLast? ≠ some '_' := by
  decide

lemma upper_concat_not_reserved (l : List Char) :
    ((l ++ ['_']).map asciiUpper) ∉ forbiddenSQLFieldNamesL := by
  intro hmem
  have h1 : ((l ++ ['_']).map asciiUpper).getLast? = some '_' := by
    rw [List.map_append]
    rw [show ['_'].map asciiUpper = ['_'] by decide]
    exact List.getLast?_concat _
  exact sql_names_no_trailing_underscore _ hmem h1

/-- C7: `Dataset::normalizeFieldName` is idempotent — applying it to a
name that is already its own output returns that name unchanged. -/
theorem normalizeFieldName_idempotent (isDb : Bool) (name : List Char) :
    Dataset.normalizeFieldName isDb (Dataset.normalizeFieldName isDb name)
      = Dataset.normalizeFieldName isDb name := by
  simp only [Dataset.normalizeFieldName, normalizeL]
  set out2 := digitPrefix (replaceForbiddenL name) with hout2
  have hfix : replaceForbiddenL out2 = out2 := by
    rw [hout2]
    exact replaceForbiddenL_fixed_digitPrefix _ (replaceForbiddenL_idem name)
  by_cases hkw : isDb ∧ (out2.map asciiUpper) ∈ forbiddenSQLFieldNamesL
  · rw [if_pos hkw]
    have h1 : replaceForbiddenL (out2 ++ ['_']) = out2 ++ ['_'] := by
      rw [replaceForbiddenL_append, hfix,
        show replaceForbiddenL ['_'] = ['_'] by decide]
    rw [h1, hout2, digitPrefix_concat_underscore]
    rw [if_neg (fun h => upper_concat_not_reserved _ h.2)]
  · rw [if_neg hkw]
    rw [hfix, hout2, digitPrefix_idem]
    rw [← hout2, if_neg hkw]

/-- The collision loop returns the first valid candidate among the
counters it still gets to try, and the empty (failure) name when all of
them are invalid.  `counter + fuel = MAX_EQUAL_NAMES` is the top-level
call's invariant. -/
lemma nameSearch_spec (valid : List Char → Bool) (base : List Char) :
    ∀ fuel counter, counter + fuel = MAX_EQUAL_NAMES →
    nameSearch valid base counter (candidate base counter) fuel
      = (match (List.range' counter fuel).find?
            (fun n => valid (candidate base n)) with
         | some n => candidate base n
         | none => []) := by
  intro fuel
  induction fuel with
  | zero =>
    intro counter _
    simp [nameSearch]
  | succ fuel ih =>
    intro counter h
    rw [List.range'_succ]
    simp only [List.find?_cons]
    by_cases hv : valid (candidate base counter) = true
    · simp [nameSearch, hv]
    · simp only [nameSearch, if_neg hv]
      rw [Bool.not_eq_true] at hv
      simp only [hv, cond_false]
      rw [Bool.eq_false_iff] at hv
      by_cases hc : counter + 1 = MAX_EQUAL_NAMES
      · rw [if_pos hc]
        have hf : fuel = 0 := by
          simp only [MAX_EQUAL_NAMES] at h hc
          omega
        subst hf
        simp
      · rw [if_neg hc]
        have h2 : (counter + 1) + fuel = MAX_EQUAL_NAMES := by
          simp only [MAX_EQUAL_NAMES] at h hc ⊢
          omega
        have := ih (counter + 1) h2
        simpa [candidate] using this

/-- C6 amended: `normalizeDatasetName` maps an empty request to
`new_dataset` and otherwise replaces every forbidden character with an
underscore; it then returns the first of the candidates
`base, base_1, …, base_9999` that passes `isNameValid` (no
case-insensitive collision with an existing child name nor, for
database-backed formats, with the reserved metadata table name), and the
empty name — a hard failure, no mutation having happened — when all
`MAX_EQUAL_NAMES = 10000` candidates are taken. -/
theorem normalizeDatasetName_spec (children : List (List Char))
    (isDb : Bool) (name : List Char) :
    Dataset.normalizeDatasetName children isDb name
      = (let base := if name = [] then "new_dataset".toList
                     else replaceForbiddenL (normalizeL name)
         match (List.range MAX_EQUAL_NAMES).find?
            (fun n => Dataset.isNameValid children isDb (candidate base n)) with
         | some n => candidate base n
         | none => []) := by
  rw [List.range_eq_range' MAX_EQUAL_NAMES]
  exact nameSearch_spec (Dataset.isNameValid children isDb) _ MAX_EQUAL_NAMES 0 rfl

/-- Counterexample to C6 as stated: in a database-backed dataset with no
children at all, the requested name `nga_meta` collides with no existing
child name, yet the code suffixes it to `nga_meta_1` (the validity loop
also rejects the reserved metadata table name). -/
theorem normalizeDatasetName_reserved_cex :
    Dataset.normalizeDatasetName [] true "nga_meta".toList
        = "nga_meta_1".toList
    ∧ "nga_meta_1".toList ≠ "nga_meta".toList := by
  constructor
  · decide
  · decide

/-! ## `Dataset::refresh` (dataset.cpp) -/

/-- One layer of the live store as `refresh` sees it: its name, whether
`skipFillFeatureClass` hides it (metadata / overviews / history side
tables), and whether `GetGeomType() == wkbNone` (plain table vs feature
class). -/
structure Layer where
  name : String
  hidden : Bool
  isTable : Bool
  deriving DecidableEq, Repr

/-- The wrapper kind `refresh` constructs for a new layer. -/
inductive ChildKind where
  | table
  | featureClass
  deriving DecidableEq, Repr

/-- An in-memory child wrapper; `id` stands for the wrapper's object
identity. -/
structure Child where
  id : Nat
  name : String
  kind : ChildKind
  deriving DecidableEq, Repr

/-- Modelled from the spec: `removeDuplicates` (from `util/stringutil`,
not under src/) "removes mutually-present names from both sets"
(spec §4.2 on `refresh`). -/
def removeDuplicates (deleteNames addNames : List String) :
    List String × List String :=
  (deleteNames.filter (fun n => n ∉ addNames),
   addNames.filter (fun n => n ∉ deleteNames))

/-- The child-deletion loop of `refresh`: walk the children; a child
whose name is found in `deleteNames` is erased together with that
`deleteNames` entry, all other children advance untouched. -/
def deleteLoop : List Child → List String → List Child
  | [], _ => []
  | c :: rest, dn =>
    if c.name ∈ dn then deleteLoop rest (dn.erase c.name)
    else c :: deleteLoop rest dn

/-- The creation loop of `refresh`: for each newly discovered layer name,
`GetLayerByName` and construct a `Table` wrapper when the geometry type
is `wkbNone`, otherwise a `FeatureClass` wrapper.  `base` numbers the
fresh wrapper identities. -/
def mkChildren (layers : List Layer) : Nat → List String → List Child
  | _, [] => []
  | base, n :: rest =>
    match layers.find? (fun l => l.name = n) with
    | some l =>
      ⟨base, n, if l.isTable then ChildKind.table else ChildKind.featureClass⟩
        :: mkChildren layers (base + 1) rest
    | none => mkChildren layers base rest

/-- `Dataset::refresh` (dataset.cpp) for a dataset whose children are
loaded (`m_childrenLoaded`; otherwise the code only calls
`hasChildren()` and returns): collect the visible store layer names as
the add-set and the children names as the delete-set, drop the mutually
present names from both, erase the children remaining in the delete-set
and append fresh wrappers for the names remaining in the add-set. -/
def Dataset.refresh (layers : List Layer) (children : List Child)
    (base : Nat) : List Child :=
  let addNames0 := (layers.filter (fun l => ¬ l.hidden)).map Layer.name
  let deleteNames0 := children.map Child.name
  let dn := (removeDuplicates deleteNames0 addNames0).1
  let an := (removeDuplicates deleteNames0 addNames0).2
  deleteLoop children dn ++ mkChildren layers base an

lemma deleteLoop_eq_filter :
    ∀ (children : List Child) (dn : List String),
    (children.map Child.name).Nodup →
    deleteLoop children dn = children.filter (fun c => c.name ∉ dn) := by
  intro children
  induction children with
  | nil => intro dn _; rfl
  | cons c rest ih =>
    intro dn hnd
    have hnd' : (c.name :: rest.map Child.name).Nodup := by simpa using hnd
    have hnotin : c.name ∉ rest.map Child.name := (List.nodup_cons.mp hnd').1
    have hrest : (rest.map Child.name).Nodup := (List.nodup_cons.mp hnd').2
    by_cases hm : c.name ∈ dn
    · rw [deleteLoop, if_pos hm, ih _ hrest]
      rw [List.filter_cons]
      rw [if_neg (by simpa using hm)]
      refine List.filter_congr ?_
      intro x hx
      have hne : x.name ≠ c.name := by
        intro he
        exact hnotin (he ▸ List.mem_map_of_mem Child.name hx)
      simp [List.mem_erase_of_ne hne]
    · rw [deleteLoop, if_neg hm, ih _ hrest]
      rw [List.filter_cons, if_pos (by simpa using hm)]

lemma mkChildren_names (layers : List Layer) :
    ∀ (an : List String) (base : Nat),
    (∀ n ∈ an, ∃ l ∈ layers, l.name = n) →
    (mkChildren layers base an).map Child.name = an := by
  intro an
  induction an with
  | nil => intro base _; rfl
  | cons n rest ih =>
    intro base hall
    obtain ⟨l, hl, hln⟩ := hall n (List.mem_cons_self n rest)
    have : (layers.find? (fun l => l.name = n)).isSome :=
      List.find?_isSome.mpr ⟨l, hl, by simpa using hln⟩
    obtain ⟨l', hl'⟩ := Option.isSome_iff_exists.mp this
    rw [mkChildren, hl']
    simp only [List.map_cons]
    rw [ih (base + 1) (fun m hm => hall m (List.mem_cons_of_mem n hm))]

lemma mkChildren_ids (layers : List Layer) :
    ∀ (an : List String) (base : Nat),
    ∀ c ∈ mkChildren layers base an, base ≤ c.id := by
  intro an
  induction an with
  | nil => intro base c hc; cases hc
  | cons n rest ih =>
    intro base c hc
    rw [mkChildren] at hc
    cases hfind : layers.find? (fun l => l.name = n) with
    | some l =>
      rw [hfind] at hc
      rcases List.mem_cons.mp hc with h | h
      · subst h; exact Nat.le_refl _
      · exact Nat.le_of_succ_le (ih (base + 1) c h)
    | none =>
      rw [hfind] at hc
      exact ih base c hc

lemma perm_of_nodup_mem_iff {l1 l2 : List String}
    (h1 : l1.Nodup) (h2 : l2.Nodup) (h : ∀ x, x ∈ l1 ↔ x ∈ l2) :
    l1.Perm l2 := by
  rw [List.perm_iff_count]
  intro x
  by_cases hx : x ∈ l1
  · rw [List.count_eq_one_of_mem h1 hx,
      List.count_eq_one_of_mem h2 ((h x).mp hx)]
  · rw [List.count_eq_zero_of_not_mem hx,
      List.count_eq_zero_of_not_mem (fun hh => hx ((h x).mpr hh))]

/-- C5: after `refresh` on a loaded dataset whose children and visible
store layers have (individually) distinct names, the in-memory child
list holds exactly one wrapper per non-hidden layer of the store (the
result's names are a permutation of the visible layer names); every
child whose name is still present in the store survives with its object
identity intact; and every resulting child is either one of the old
wrappers or a freshly constructed one. -/
theorem refresh_reconciles (layers : List Layer) (children : List Child)
    (base : Nat)
    (hc : (children.map Child.name).Nodup)
    (hl : ((layers.filter (fun l => ¬ l.hidden)).map Layer.name).Nodup) :
    ((Dataset.refresh layers children base).map Child.name).Perm
        ((layers.filter (fun l => ¬ l.hidden)).map Layer.name)
    ∧ (∀ c ∈ children,
        c.name ∈ (layers.filter (fun l => ¬ l.hidden)).map Layer.name →
          c ∈ Dataset.refresh layers children base)
    ∧ (∀ c ∈ Dataset.refresh layers children base,
        c ∈ children ∨ base ≤ c.id) := by
  set addNames0 := (layers.filter (fun l => ¬ l.hidden)).map Layer.name
    with haddNames0
  set deleteNames0 := children.map Child.name with hdeleteNames0
  have hkept : deleteLoop children
        ((removeDuplicates deleteNames0 addNames0).1)
      = children.filter (fun c => c.name ∈ addNames0) := by
    rw [deleteLoop_eq_filter children _ hc]
    refine List.filter_congr ?_
    intro c hcmem
    have hmem : c.name ∈ deleteNames0 := List.mem_map_of_mem Child.name hcmem
    simp only [removeDuplicates]
    by_cases h : c.name ∈ addNames0
    · simp [h, hmem]
    · simp [h, hmem]
  have hnew : (mkChildren layers base
        ((removeDuplicates deleteNames0 addNames0).2)).map Child.name
      = addNames0.filter (fun n => n ∉ deleteNames0) := by
    rw [show (removeDuplicates deleteNames0 addNames0).2
        = addNames0.filter (fun n => n ∉ deleteNames0) from rfl]
    refine mkChildren_names layers _ base ?_
    intro n hn
    have hn' : n ∈ addNames0 := List.mem_of_mem_filter hn
    rw [haddNames0] at hn'
    obtain ⟨l, hlmem, hlname⟩ := List.mem_map.mp hn'
    exact ⟨l, List.mem_of_mem_filter hlmem, hlname⟩
  refine ⟨?_, ?_, ?_⟩
  · rw [Dataset.refresh]
    simp only [List.map_append]
    rw [hkept, hnew]
    have hkn : (children.filter
          (fun c => c.name ∈ addNames0)).map Child.name
        = deleteNames0.filter (fun n => n ∈ addNames0) := by
      rw [hdeleteNames0, List.filter_map]
      rfl
    rw [hkn]
    have hperm1 : (deleteNames0.filter (fun n => n ∈ addNames0)).Perm
        (addNames0.filter (fun n => n ∈ deleteNames0)) := by
      refine perm_of_nodup_mem_iff (List.Nodup.filter _ hc)
        (List.Nodup.filter _ hl) ?_
      intro x
      constructor
      · intro hx
        have h1 := List.mem_of_mem_filter hx
        have h2 := List.of_mem_filter hx
        exact List.mem_filter.mpr ⟨by simpa using h2, by simpa using h1⟩
      · intro hx
        have h1 := List.mem_of_mem_filter hx
        have h2 := List.of_mem_filter hx
        exact List.mem_filter.mpr ⟨by simpa using h2, by simpa using h1⟩
    refine (hperm1.append_right _).trans ?_
    have := List.filter_append_perm (fun n => n ∈ deleteNames0) addNames0
    refine List.Perm.trans ?_ this
    refine List.Perm.append_left _ ?_
    refine List.Perm.of_eq ?_
    refine List.filter_congr ?_
    intro x _
    simp
  · intro c hcmem hname
    rw [Dataset.refresh]
    refine List.mem_append.mpr (Or.inl ?_)
    rw [hkept]
    exact List.mem_filter.mpr ⟨hcmem, by simpa using hname⟩
  · intro c hcmem
    rw [Dataset.refresh] at hcmem
    rcases List.mem_append.mp hcmem with h | h
    · rw [hkept] at h
      exact Or.inl (List.mem_of_mem_filter h)
    · exact Or.inr (mkChildren_ids layers _ base c h)

/-- Witness for C5: the spec's own example — store layers {A, C},
in-memory children {A, B} — where refresh must converge to {A, C}. -/
theorem refresh_reconciles_witness :
    ((Dataset.refresh [⟨"A", false, true⟩, ⟨"C", false, true⟩]
        [⟨0, "A", ChildKind.table⟩, ⟨1, "B", ChildKind.table⟩] 7).map
          Child.name).Perm
      (([⟨"A", false, true⟩, ⟨"C", false, true⟩].filter
          (fun l => ¬ l.hidden)).map Layer.name) :=
  (refresh_reconciles [⟨"A", false, true⟩, ⟨"C", false, true⟩]
    [⟨0, "A", ChildKind.table⟩, ⟨1, "B", ChildKind.table⟩] 7
    (by decide) (by decide)).1

/-! ## GL tile tessellation (`GlFeatureLayer::fillPoints` / `fillLines` /
`fillPolygons`, maptransform.h, with `SimpleLineStyle`).

Coordinates are floats the control flow never branches on, so points are
carried as opaque `Nat` tokens; buffers record float-slot and index
counts plus ghost traces (which point tokens, which cap/join/segment
emissions) so the theorems can speak about what was emitted where. -/

/-- `enum CapType` of the line style. -/
inductive CapType where
  | butt
  | square
  | round
  deriving DecidableEq, Repr

/-- `enum JoinType` of the line style. -/
inductive JoinType where
  | miter
  | beveled
  | round
  deriving DecidableEq, Repr

/-- One line-style emission into a line buffer. -/
inductive Emit where
  | cap
  | join
  | segment
  deriving DecidableEq, Repr

/-- A GL line buffer: number of vertex floats pushed (`m_vertices.size()`),
number of indices pushed, and the ghost trace of style emissions in
order. -/
structure LineBuffer where
  vfloats : Nat
  icount : Nat
  events : List Emit
  deriving DecidableEq, Repr

def LineBuffer.empty : LineBuffer := ⟨0, 0, []⟩

/-- Modelled from the spec: `GlBuffer::canStoreVertices(amount, withIdx)`
is not under src/ (only its callers are); the spec bounds buffer growth
by "two fixed ceilings — maximum vertex count and maximum index count per
buffer", so the check is modelled as: the vertex store can take `amount`
more entries, and, when indices are involved, so can the index store. -/
def canStoreVertices (maxV maxI : Nat) (vfloats icount amount : Nat)
    (withIdx : Bool) : Bool :=
  vfloats + amount ≤ maxV ∧ (withIdx → icount + amount ≤ maxI)

/-- `SimpleLineStyle::lineCapVerticesCount()` (maptransform.h). -/
def lineCapVerticesCount (ct : CapType) (seg : Nat) : Nat :=
  match ct with
  | CapType.round => 3 * seg
  | CapType.butt => 0
  | CapType.square => 2

/-- `SimpleLineStyle::lineJoinVerticesCount()` (maptransform.h). -/
def lineJoinVerticesCount (jt : JoinType) (seg : Nat) : Nat :=
  match jt with
  | JoinType.round => 3 * seg
  | JoinType.miter => 6
  | JoinType.beveled => 3

/-- `SimpleLineStyle::addLineCap` (maptransform.h): a butt cap writes
nothing; a square cap writes 4 vertices of 5 floats and 6 indices; a
round cap writes, per fan segment, 3 vertices of 5 floats and 3 indices.
A call that writes is traced as one `cap` emission. -/
def addLineCap (ct : CapType) (seg : Nat) (b : LineBuffer) : LineBuffer :=
  match ct with
  | CapType.butt => b
  | CapType.square => ⟨b.vfloats + 20, b.icount + 6, b.events ++ [Emit.cap]⟩
  | CapType.round =>
    if seg = 0 then b
    else ⟨b.vfloats + 15 * seg, b.icount + 3 * seg, b.events ++ [Emit.cap]⟩

/-- `SimpleLineStyle::addLineJoin` (maptransform.h): a miter join writes
two triangles (6 vertices of 5 floats, 6 indices), a beveled join one
triangle (3 vertices, 3 indices), a round join a fan of `seg` triangles.
A call that writes is traced as one `join` emission. -/
def addLineJoin (jt : JoinType) (seg : Nat) (b : LineBuffer) : LineBuffer :=
  match jt with
  | JoinType.miter => ⟨b.vfloats + 30, b.icount + 6, b.events ++ [Emit.join]⟩
  | JoinType.beveled => ⟨b.vfloats + 15, b.icount + 3, b.events ++ [Emit.join]⟩
  | JoinType.round =>
    if seg = 0 then b
    else ⟨b.vfloats + 15 * seg, b.icount + 3 * seg, b.events ++ [Emit.join]⟩

/-- `SimpleLineStyle::addSegment` (maptransform.h): one quad — 4 vertices
of 5 floats and 6 indices — traced as one `segment` emission. -/
def addSegment (b : LineBuffer) : LineBuffer :=
  ⟨b.vfloats + 20, b.icount + 6, b.events ++ [Emit.segment]⟩

/-- The flush-and-restart idiom of the fill routines: when the active
line buffer cannot store `amount` more, it is pushed onto the output
list and a fresh buffer is started. -/
def flushLine (maxV maxI amount : Nat)
    (s : List LineBuffer × LineBuffer) : List LineBuffer × LineBuffer :=
  if ¬ canStoreVertices maxV maxI s.2.vfloats s.2.icount amount true then
    (s.1 ++ [s.2], LineBuffer.empty)
  else s

/-- One line item of a vector tile as `fillLines` consumes it: whether
the hide-set intersects its ids, its point count, and whether the
polyline is closed.  The point coordinates never influence control flow
and are not carried. -/
structure LineItem where
  hidden : Bool
  pointCount : Nat
  closed : Bool
  deriving DecidableEq, Repr

/-- The cap block of `fillLines`' segment loop: at the first and last
segment of an open line, flush-check the cap's vertex count and emit the
cap. -/
def capPhase (maxV maxI : Nat) (ct : CapType) (seg pc : Nat)
    (closed : Bool) (s : List LineBuffer × LineBuffer) (i : Nat) :
    List LineBuffer × LineBuffer :=
  if (i = 0 ∨ i = pc - 2) ∧ ¬ closed then
    let s :=
      if i = 0 then
        let s := flushLine maxV maxI (lineCapVerticesCount ct seg) s
        (s.1, addLineCap ct seg s.2)
      else s
    if i = pc - 2 then
      let s := flushLine maxV maxI (lineCapVerticesCount ct seg) s
      (s.1, addLineCap ct seg s.2)
    else s
  else s

/-- The join block of `fillLines`' segment loop: before every segment
but the first, flush-check the join's vertex count and emit the join. -/
def joinPhase (maxV maxI : Nat) (jt : JoinType) (seg : Nat)
    (s : List LineBuffer × LineBuffer) (i : Nat) :
    List LineBuffer × LineBuffer :=
  if i ≠ 0 then
    let s := flushLine maxV maxI (lineJoinVerticesCount jt seg) s
    (s.1, addLineJoin jt seg s.2)
  else s

/-- The segment block of `fillLines`' loop: flush-check 12 and emit the
segment quad. -/
def segPhase (maxV maxI : Nat) (s : List LineBuffer × LineBuffer) :
    List LineBuffer × LineBuffer :=
  let s := flushLine maxV maxI 12 s
  (s.1, addSegment s.2)

/-- The body of `fillLines`' segment loop (`for i in 0 .. pointCount-2`):
caps at the open ends, a join before every segment but the first, then
the segment quad, each guarded by a flush check. -/
def fillLinesStep (maxV maxI : Nat) (ct : CapType) (jt : JoinType)
    (seg : Nat) (pc : Nat) (closed : Bool)
    (s : List LineBuffer × LineBuffer) (i : Nat) :
    List LineBuffer × LineBuffer :=
  segPhase maxV maxI
    (joinPhase maxV maxI jt seg (capPhase maxV maxI ct seg pc closed s i) i)

/-- `GlFeatureLayer::fillLines` (maptransform.h): per visible item with
at least two points, walk the consecutive point pairs emitting
caps/joins/segments, flushing the buffer whenever the next primitive
would overflow; the final buffer is appended at the end. -/
def fillLines (maxV maxI : Nat) (ct : CapType) (jt : JoinType)
    (seg : Nat) (items : List LineItem) : List LineBuffer :=
  let s := items.foldl (fun s it =>
    if it.hidden then s
    else if it.pointCount < 2 then s
    else (List.range (it.pointCount - 1)).foldl
      (fillLinesStep maxV maxI ct jt seg it.pointCount it.closed) s)
    ([], LineBuffer.empty)
  s.1 ++ [s.2]

/-- Counterexample to C9 as stated: a single open 3-point line with
square caps and beveled joins does produce 2 caps, 1 join and 2 segments,
but in the order cap, segment, cap, join, segment — not all caps, then
the join, then the segments. -/
theorem fillLines_3pt_order_cex :
    ((fillLines 1000 1000 CapType.square JoinType.beveled 10
        [⟨false, 3, false⟩]).map LineBuffer.events).flatten
      = [Emit.cap, Emit.segment, Emit.cap, Emit.join, Emit.segment]
    ∧ [Emit.cap, Emit.segment, Emit.cap, Emit.join, Emit.segment]
      ≠ [Emit.cap, Emit.cap, Emit.join, Emit.segment, Emit.segment] := by
  constructor
  · decide
  · decide

/-- C9 amended: filling a tile with a single open 3-point line under
`CT_SQUARE` caps and `JT_BEVELED` joins emits exactly 2 caps, 1 join and
2 segments into the line buffer, interleaved per segment — start cap,
first segment, end cap, join, second segment — whenever the buffer
ceilings are large enough that no flush splits the line. -/
theorem fillLines_3pt_square_bevel_emissions (maxV maxI seg : Nat)
    (hv : 95 ≤ maxV) (hi : 33 ≤ maxI) :
    ((fillLines maxV maxI CapType.square JoinType.beveled seg
        [⟨false, 3, false⟩]).map LineBuffer.events).flatten
      = [Emit.cap, Emit.segment, Emit.cap, Emit.join, Emit.segment] := by
  have hc1 : canStoreVertices maxV maxI 0 0 2 true = true := by
    simp [canStoreVertices]
    omega
  have hc2 : canStoreVertices maxV maxI 20 6 12 true = true := by
    simp [canStoreVertices]
    omega
  have hc3 : canStoreVertices maxV maxI 40 12 2 true = true := by
    simp [canStoreVertices]
    omega
  have hc4 : canStoreVertices maxV maxI 60 18 3 true = true := by
    simp [canStoreVertices]
    omega
  have hc5 : canStoreVertices maxV maxI 75 21 12 true = true := by
    simp [canStoreVertices]
    omega
  simp [fillLines, fillLinesStep, capPhase, joinPhase, segPhase,
    flushLine, addLineCap, addLineJoin,
    addSegment, lineCapVerticesCount, lineJoinVerticesCount,
    LineBuffer.empty, hc1, hc2, hc3, hc4, hc5,
    show List.range 2 = [0, 1] from by decide]

/-- Witness for the amended C9 at concrete ceilings. -/
theorem fillLines_3pt_square_bevel_emissions_witness :
    ((fillLines 2000 2000 CapType.square JoinType.beveled 8
        [⟨false, 3, false⟩]).map LineBuffer.events).flatten
      = [Emit.cap, Emit.segment, Emit.cap, Emit.join, Emit.segment] :=
  fillLines_3pt_square_bevel_emissions 2000 2000 8 (by norm_num) (by norm_num)

/-- One point item of a vector tile as `fillPoints` consumes it; `hidden`
is the outcome of `!m_hideFIDs.empty() && tileItem.isIdsPresent(...)`,
points are opaque tokens. -/
structure PointItem where
  hidden : Bool
  points : List Nat
  deriving DecidableEq, Repr

/-- A GL point buffer: float and index counts plus the ghost trace of
which point tokens were emitted into it. -/
structure PtBuffer where
  vfloats : Nat
  icount : Nat
  pts : List Nat
  deriving DecidableEq, Repr

def PtBuffer.empty : PtBuffer := ⟨0, 0, []⟩

/-- The active point style's `addPoint`: it appends the style's
`pointVerticesCount()` vertices (and as many indices) for the point; the
token is traced. -/
def addPoint (pvc : Nat) (b : PtBuffer) (p : Nat) : PtBuffer :=
  ⟨b.vfloats + pvc, b.icount + pvc, b.pts ++ [p]⟩

/-- The body of `fillPoints`' per-point loop: flush the active buffer
when the style's per-point vertex count no longer fits, then add the
point. -/
def pointStep (maxV maxI pvc : Nat) (s : List PtBuffer × PtBuffer)
    (p : Nat) : List PtBuffer × PtBuffer :=
  let s :=
    if ¬ canStoreVertices maxV maxI s.2.vfloats s.2.icount pvc true then
      (s.1 ++ [s.2], PtBuffer.empty)
    else s
  (s.1, addPoint pvc s.2 p)

/-- Processing of one item inside `fillPoints`: skip hidden and empty
items, walk the item's points otherwise. -/
def fillPointsItem (maxV maxI pvc : Nat) (s : List PtBuffer × PtBuffer)
    (it : PointItem) : List PtBuffer × PtBuffer :=
  if it.hidden then s
  else if it.points.length < 1 then s
  else it.points.foldl (pointStep maxV maxI pvc) s

/-- `GlFeatureLayer::fillPoints` (maptransform.h): per visible, non-empty
item, append each point, flushing into a fresh buffer whenever the style's
per-point vertex count no longer fits; the final buffer is appended. -/
def fillPoints (maxV maxI pvc : Nat) (items : List PointItem) :
    List PtBuffer :=
  let s := items.foldl (fillPointsItem maxV maxI pvc) ([], PtBuffer.empty)
  s.1 ++ [s.2]

/-- One polygon item of a vector tile as `fillPolygons` consumes it:
hide-set outcome, ring points as tokens, the earcut triangulation indices
supplied by the tile, and the border index paths. -/
structure PolyItem where
  hidden : Bool
  points : List Nat
  indices : List Nat
  borders : List (List Nat)
  deriving DecidableEq, Repr

/-- A GL fill buffer: the vertex floats pushed (one entry per
`addVertex`, tagged with the point token whose x/y/z is being written)
and the index values pushed. -/
structure FillBuffer where
  verts : List Nat
  ivals : List Nat
  deriving DecidableEq, Repr

def FillBuffer.empty : FillBuffer := ⟨[], []⟩

/-- The running state of `fillPolygons`: flushed fill buffers, the active
fill buffer, the running `fillIndex` base, flushed line buffers and the
active line buffer. -/
structure PolyState where
  fillAcc : List FillBuffer
  fillBuf : FillBuffer
  fillIndex : Nat
  lineAcc : List LineBuffer
  lineBuf : LineBuffer
  deriving DecidableEq, Repr

/-- The body of the border walk of `fillPolygons`
(`for i in 0 .. border.size()-2`): at the last pair a closing join
(guarded by the cap vertex count), a join before every segment but the
first, then the segment quad. -/
def borderStep (maxV maxI : Nat) (ct : CapType) (jt : JoinType)
    (seg : Nat) (pc : Nat) (s : List LineBuffer × LineBuffer) (i : Nat) :
    List LineBuffer × LineBuffer :=
  let s :=
    if i = pc - 2 then
      let s := flushLine maxV maxI (lineCapVerticesCount ct seg) s
      (s.1, addLineJoin jt seg s.2)
    else s
  let s :=
    if i ≠ 0 then
      let s := flushLine maxV maxI (lineJoinVerticesCount jt seg) s
      (s.1, addLineJoin jt seg s.2)
    else s
  let s := flushLine maxV maxI 12 s
  (s.1, addSegment s.2)

/-- Processing of one polygon item inside `fillPolygons`: skip hidden
items and items whose point count is < 3 or exceeds the index or the
vertex ceiling; otherwise flush the fill buffer if the ring's `3·p`
floats no longer fit, push all ring vertices, push every triangulation
index shifted by `fillIndex` (advancing `fillIndex` by the largest raw
index seen), and, for the bordered fill style, tessellate every border
path into the line buffer. -/
def fillPolygonsItem (maxV maxI : Nat) (ct : CapType) (jt : JoinType)
    (seg : Nat) (bordered : Bool) (st : PolyState) (it : PolyItem) :
    PolyState :=
  if it.hidden then st
  else
    let p := it.points.length
    if p < 3 ∨ p > maxI ∨ p > maxV then st
    else
      let st :=
        if ¬ canStoreVertices maxV maxI st.fillBuf.verts.length
            st.fillBuf.ivals.length (p * 3) false then
          { st with fillAcc := st.fillAcc ++ [st.fillBuf],
                    fillBuf := FillBuffer.empty, fillIndex := 0 }
        else st
      let newVerts := it.points.flatMap (fun t => [t, t, t])
      let maxFillIndex := it.indices.foldl (fun m i => max m i) 0
      let st :=
        { st with
            fillBuf :=
              ⟨st.fillBuf.verts ++ newVerts,
               st.fillBuf.ivals ++ it.indices.map (fun i => st.fillIndex + i)⟩,
            fillIndex := st.fillIndex + maxFillIndex }
      if bordered then
        let ls := it.borders.foldl (fun ls border =>
          (List.range (border.length - 1)).foldl
            (borderStep maxV maxI ct jt seg border.length) ls)
          (st.lineAcc, st.lineBuf)
        { st with lineAcc := ls.1, lineBuf := ls.2 }
      else st

/-- `GlFeatureLayer::fillPolygons` (maptransform.h): fold the item
processing over the tile's items and append the final fill and line
buffers. -/
def fillPolygons (maxV maxI : Nat) (ct : CapType) (jt : JoinType)
    (seg : Nat) (bordered : Bool) (items : List PolyItem) :
    List FillBuffer × List LineBuffer :=
  let st := items.foldl (fillPolygonsItem maxV maxI ct jt seg bordered)
    ⟨[], FillBuffer.empty, 0, [], LineBuffer.empty⟩
  (st.fillAcc ++ [st.fillBuf], st.lineAcc ++ [st.lineBuf])

/-- The vertex floats emitted into the fill buffers so far, in order. -/
def fillFlatVerts (st : PolyState) : List Nat :=
  (st.fillAcc.map FillBuffer.verts).flatten ++ st.fillBuf.verts

/-- The number of indices emitted into the fill buffers so far. -/
def fillIdxLen (st : PolyState) : Nat :=
  (st.fillAcc.map (fun b => b.ivals.length)).sum + st.fillBuf.ivals.length

/-- The acceptance test `fillPolygons` applies to one item: visible, at
least 3 ring points, and point count within both buffer ceilings. -/
def polyAccepted (maxV maxI : Nat) (it : PolyItem) : Bool :=
  ¬ it.hidden ∧ 3 ≤ it.points.length
    ∧ it.points.length ≤ maxI ∧ it.points.length ≤ maxV

lemma fillPolygonsItem_effects (maxV maxI : Nat) (ct : CapType)
    (jt : JoinType) (seg : Nat) (bordered : Bool) (st : PolyState)
    (it : PolyItem) :
    fillFlatVerts (fillPolygonsItem maxV maxI ct jt seg bordered st it)
      = fillFlatVerts st
        ++ (if polyAccepted maxV maxI it then
              it.points.flatMap (fun t => [t, t, t]) else [])
    ∧ fillIdxLen (fillPolygonsItem maxV maxI ct jt seg bordered st it)
      = fillIdxLen st
        + (if polyAccepted maxV maxI it then it.indices.length else 0) := by
  unfold fillPolygonsItem
  by_cases h1 : it.hidden
  · have hacc : polyAccepted maxV maxI it = false := by
      simp [polyAccepted, h1]
    simp [h1, hacc]
  · by_cases h2 : it.points.length < 3 ∨ it.points.length > maxI
        ∨ it.points.length > maxV
    · have hacc : polyAccepted maxV maxI it = false := by
        simp only [polyAccepted]
        rcases h2 with h | h | h <;> simp [h1] <;> omega
      simp [h1, h2, hacc]
    · have hacc : polyAccepted maxV maxI it = true := by
        push_neg at h2
        simp [polyAccepted, h1]
        omega
      simp only [if_neg h1, if_neg h2, hacc, if_true]
      by_cases h3 : canStoreVertices maxV maxI st.fillBuf.verts.length
          st.fillBuf.ivals.length (it.points.length * 3) false = true
      · simp only [h3]
        by_cases h4 : bordered <;>
        · constructor
          · simp [h4, fillFlatVerts]
          · simp [h4, fillIdxLen]
            omega
      · rw [Bool.not_eq_true] at h3
        simp only [h3]
        by_cases h4 : bordered <;>
        · constructor
          · simp [h4, fillFlatVerts, FillBuffer.empty]
          · simp [h4, fillIdxLen, FillBuffer.empty]

lemma foldl_fillPolygonsItem (maxV maxI : Nat) (ct : CapType)
    (jt : JoinType) (seg : Nat) (bordered : Bool) :
    ∀ (items : List PolyItem) (st : PolyState),
    fillFlatVerts
        (items.foldl (fillPolygonsItem maxV maxI ct jt seg bordered) st)
      = fillFlatVerts st
        ++ (items.filter (polyAccepted maxV maxI)).flatMap
            (fun it => it.points.flatMap (fun t => [t, t, t]))
    ∧ fillIdxLen
        (items.foldl (fillPolygonsItem maxV maxI ct jt seg bordered) st)
      = fillIdxLen st
        + ((items.filter (polyAccepted maxV maxI)).map
            (fun it => it.indices.length)).sum := by
  intro items
  induction items with
  | nil => intro st; simp
  | cons it rest ih =>
    intro st
    have heff := fillPolygonsItem_effects maxV maxI ct jt seg bordered st it
    have hrest := ih (fillPolygonsItem maxV maxI ct jt seg bordered st it)
    constructor
    · rw [List.foldl_cons, hrest.1, heff.1, List.filter_cons]
      by_cases hacc : polyAccepted maxV maxI it = true
      · simp [hacc]
      · rw [Bool.not_eq_true] at hacc
        simp [hacc]
    · rw [List.foldl_cons, hrest.2, heff.2, List.filter_cons]
      by_cases hacc : polyAccepted maxV maxI it = true
      · simp [hacc]
        omega
      · rw [Bool.not_eq_true] at hacc
        simp [hacc]

/-- The point tokens emitted into the point buffers so far, in order. -/
def ptsFlat (s : List PtBuffer × PtBuffer) : List Nat :=
  (s.1.map PtBuffer.pts).flatten ++ s.2.pts

lemma ptsFlat_pointStep (maxV maxI pvc : Nat)
    (s : List PtBuffer × PtBuffer) (p : Nat) :
    ptsFlat (pointStep maxV maxI pvc s p) = ptsFlat s ++ [p] := by
  unfold pointStep
  by_cases h : canStoreVertices maxV maxI s.2.vfloats s.2.icount pvc true
      = true
  · simp [h, ptsFlat, addPoint]
  · rw [Bool.not_eq_true] at h
    simp [h, ptsFlat, addPoint, PtBuffer.empty]

lemma ptsFlat_foldl_points (maxV maxI pvc : Nat) :
    ∀ (ps : List Nat) (s : List PtBuffer × PtBuffer),
    ptsFlat (ps.foldl (pointStep maxV maxI pvc) s) = ptsFlat s ++ ps := by
  intro ps
  induction ps with
  | nil => intro s; simp
  | cons p rest ih =>
    intro s
    rw [List.foldl_cons, ih, ptsFlat_pointStep]
    simp

lemma ptsFlat_foldl_items (maxV maxI pvc : Nat) :
    ∀ (items : List PointItem) (s : List PtBuffer × PtBuffer),
    ptsFlat (items.foldl (fillPointsItem maxV maxI pvc) s)
      = ptsFlat s
        ++ (items.filter (fun it => ¬ it.hidden)).flatMap PointItem.points := by
  intro items
  induction items with
  | nil => intro s; simp
  | cons it rest ih =>
    intro s
    rw [List.foldl_cons, ih, List.filter_cons]
    unfold fillPointsItem
    by_cases h1 : it.hidden
    · simp [h1]
    · by_cases h2 : it.points.length < 1
      · have hpts : it.points = [] := List.eq_nil_of_length_eq_zero (by omega)
        simp [h1, h2, hpts]
      · rw [if_neg h1, if_neg h2, ptsFlat_foldl_points]
        simp [h1]

/-- The number of segment emissions across the line buffers so far. -/
def segEmits (s : List LineBuffer × LineBuffer) : Nat :=
  (s.1.map (fun b => b.events.count Emit.segment)).sum
    + s.2.events.count Emit.segment

lemma segEmits_flushLine (maxV maxI amount : Nat)
    (s : List LineBuffer × LineBuffer) :
    segEmits (flushLine maxV maxI amount s) = segEmits s := by
  unfold flushLine
  by_cases h : canStoreVertices maxV maxI s.2.vfloats s.2.icount amount true
      = true
  · simp [h]
  · rw [Bool.not_eq_true] at h
    simp [h, segEmits, LineBuffer.empty]
    try omega

lemma segEmits_addLineCap (ct : CapType) (seg : Nat) (acc : List LineBuffer)
    (b : LineBuffer) :
    segEmits (acc, addLineCap ct seg b) = segEmits (acc, b) := by
  cases ct with
  | butt => rfl
  | square => simp [addLineCap, segEmits]
  | round =>
    by_cases h : seg = 0
    · simp [addLineCap, h]
    · simp [addLineCap, h, segEmits]

lemma segEmits_addLineJoin (jt : JoinType) (seg : Nat)
    (acc : List LineBuffer) (b : LineBuffer) :
    segEmits (acc, addLineJoin jt seg b) = segEmits (acc, b) := by
  cases jt with
  | miter => simp [addLineJoin, segEmits]
  | beveled => simp [addLineJoin, segEmits]
  | round =>
    by_cases h : seg = 0
    · simp [addLineJoin, h]
    · simp [addLineJoin, h, segEmits]

lemma segEmits_capPhase (maxV maxI : Nat) (ct : CapType) (seg pc : Nat)
    (closed : Bool) (s : List LineBuffer × LineBuffer) (i : Nat) :
    segEmits (capPhase maxV maxI ct seg pc closed s i) = segEmits s := by
  unfold capPhase
  split_ifs <;>
    simp only [segEmits_addLineCap, Prod.mk.eta, segEmits_flushLine]

lemma segEmits_joinPhase (maxV maxI : Nat) (jt : JoinType) (seg : Nat)
    (s : List LineBuffer × LineBuffer) (i : Nat) :
    segEmits (joinPhase maxV maxI jt seg s i) = segEmits s := by
  unfold joinPhase
  split_ifs <;>
    simp only [segEmits_addLineJoin, Prod.mk.eta, segEmits_flushLine]

lemma segEmits_segPhase (maxV maxI : Nat)
    (s : List LineBuffer × LineBuffer) :
    segEmits (segPhase maxV maxI s) = segEmits s + 1 := by
  unfold segPhase
  have h1 : ∀ t : List LineBuffer × LineBuffer,
      segEmits (t.1, addSegment t.2) = segEmits t + 1 := by
    intro t
    simp [addSegment, segEmits]
    omega
  rw [h1, segEmits_flushLine]

lemma segEmits_fillLinesStep (maxV maxI : Nat) (ct : CapType)
    (jt : JoinType) (seg pc : Nat) (closed : Bool)
    (s : List LineBuffer × LineBuffer) (i : Nat) :
    segEmits (fillLinesStep maxV maxI ct jt seg pc closed s i)
      = segEmits s + 1 := by
  unfold fillLinesStep
  rw [segEmits_segPhase, segEmits_joinPhase, segEmits_capPhase]

lemma segEmits_foldl_range (maxV maxI : Nat) (ct : CapType)
    (jt : JoinType) (seg pc : Nat) (closed : Bool) :
    ∀ (n : Nat) (s : List LineBuffer × LineBuffer),
    segEmits ((List.range n).foldl
        (fillLinesStep maxV maxI ct jt seg pc closed) s)
      = segEmits s + n := by
  intro n
  induction n with
  | zero => intro s; simp
  | succ n ih =>
    intro s
    rw [List.range_succ, List.foldl_append, List.foldl_cons, List.foldl_nil,
      segEmits_fillLinesStep, ih]
    omega

lemma segEmits_foldl_items (maxV maxI : Nat) (ct : CapType)
    (jt : JoinType) (seg : Nat) :
    ∀ (items : List LineItem) (s : List LineBuffer × LineBuffer),
    segEmits (items.foldl (fun s it =>
        if it.hidden then s
        else if it.pointCount < 2 then s
        else (List.range (it.pointCount - 1)).foldl
          (fillLinesStep maxV maxI ct jt seg it.pointCount it.closed) s) s)
      = segEmits s
        + ((items.filter (fun it => ¬ it.hidden ∧ 2 ≤ it.pointCount)).map
            (fun it => it.pointCount - 1)).sum := by
  intro items
  induction items with
  | nil => intro s; simp
  | cons it rest ih =>
    intro s
    rw [List.foldl_cons, ih, List.filter_cons]
    by_cases h1 : it.hidden
    · simp [h1]
    · by_cases h2 : it.pointCount < 2
      · have : ¬ (2 ≤ it.pointCount) := by omega
        simp [h1, h2, this]
      · have h2' : 2 ≤ it.pointCount := by omega
        rw [if_neg h1, if_neg h2, segEmits_foldl_range]
        simp [h1, h2']
        omega

/-- Counterexample to C8 as stated: a visible 3-point polygon supplied
with 31 triangulation indices under ceilings of 30 is NOT skipped — all
its ring vertices and all 31 of its indices (more than the per-buffer
index ceiling) are emitted, because `fillPolygons` only tests the point
count against the ceilings, never the index count. -/
theorem fillPolygons_index_overflow_cex :
    (((fillPolygons 30 30 CapType.butt JoinType.miter 8 false
        [⟨false, [1, 2, 3], List.replicate 31 0, []⟩]).1.map
          FillBuffer.verts).flatten
      = [1, 1, 1, 2, 2, 2, 3, 3, 3])
    ∧ (((fillPolygons 30 30 CapType.butt JoinType.miter 8 false
        [⟨false, [1, 2, 3], List.replicate 31 0, []⟩]).1.map
          (fun b => b.ivals.length)).sum = 31)
    ∧ 30 < 31 := by
  refine ⟨?_, ?_, ?_⟩ <;> decide

/-- C8 amended: `fillPolygons` skips an item entirely exactly when it is
hidden, has fewer than 3 ring points, or its point count exceeds the
index or the vertex ceiling — its index count is never tested, so every
index of an accepted item is emitted even when that exceeds the index
ceiling; `fillPoints` never skips a geometry at all: every point of
every visible item is emitted (split across buffers when the active one
fills up); and `fillLines` never skips a geometry either: every visible
polyline with at least two points gets all of its `pointCount - 1`
segment quads emitted. -/
theorem fill_capacity_behavior (maxV maxI pvc : Nat) (ct : CapType)
    (jt : JoinType) (seg : Nat) (bordered : Bool)
    (pitems : List PolyItem) (qitems : List PointItem)
    (litems : List LineItem) :
    (((fillPolygons maxV maxI ct jt seg bordered pitems).1.map
        FillBuffer.verts).flatten
      = (pitems.filter (polyAccepted maxV maxI)).flatMap
          (fun it => it.points.flatMap (fun t => [t, t, t])))
    ∧ (((fillPolygons maxV maxI ct jt seg bordered pitems).1.map
        (fun b => b.ivals.length)).sum
      = ((pitems.filter (polyAccepted maxV maxI)).map
          (fun it => it.indices.length)).sum)
    ∧ (((fillPoints maxV maxI pvc qitems).map PtBuffer.pts).flatten
      = (qitems.filter (fun it => ¬ it.hidden)).flatMap PointItem.points)
    ∧ (((fillLines maxV maxI ct jt seg litems).map
        (fun b => b.events.count Emit.segment)).sum
      = ((litems.filter (fun it => ¬ it.hidden ∧ 2 ≤ it.pointCount)).map
          (fun it => it.pointCount - 1)).sum) := by
  have hp := foldl_fillPolygonsItem maxV maxI ct jt seg bordered pitems
    ⟨[], FillBuffer.empty, 0, [], LineBuffer.empty⟩
  have hq := ptsFlat_foldl_items maxV maxI pvc qitems ([], PtBuffer.empty)
  have hl := segEmits_foldl_items maxV maxI ct jt seg litems
    ([], LineBuffer.empty)
  refine ⟨?_, ?_, ?_, ?_⟩
  · have h1 := hp.1
    simp only [fillFlatVerts, FillBuffer.empty] at h1
    simp only [fillPolygons]
    simpa using h1
  · have h2 := hp.2
    simp only [fillIdxLen, FillBuffer.empty] at h2
    simp only [fillPolygons]
    simpa using h2
  · simp only [ptsFlat, PtBuffer.empty] at hq
    simp only [fillPoints]
    simpa using hq
  · simp only [segEmits, LineBuffer.empty] at hl
    simp only [fillLines]
    simpa using hl

end NgStore
